import Mathlib

/-!
Verification of the LES flow-control core (package `les/flowcontrol` together
with the flow-control parts of `les/peer.go`).

The embedding is shallow: every Go `uint64` is a `Nat` that is reduced modulo
`2 ^ 64` exactly where the Go operation wraps (`u64add`, `u64sub`, `u64mul`);
`mclock.AbsTime` (monotonic nanoseconds, an `int64` that is non-negative in
practice) is a `Nat`; Go maps with `uint64` keys are total functions
`Nat → Option Nat` (insertion overwrites, deletion removes); the Go `float64`
ratio returned by `canSend` is modelled as an exact rational; a Go runtime
panic (integer division by zero) is modelled by returning `none`.
The external `ClientManager` hooks (`accept`, `processed`) are opaque
collaborators of the core, so their results are passed in as parameters.
-/

namespace FlowControl

/-- Modulus of 64-bit unsigned arithmetic. -/
def W : Nat := 2 ^ 64

/-- Go `uint64` addition: wraps modulo `2 ^ 64`. -/
def u64add (a b : Nat) : Nat := (a + b) % W

/-- Go `uint64` subtraction: wraps modulo `2 ^ 64`. -/
def u64sub (a b : Nat) : Nat := (a + (W - b % W)) % W

/-- Go `uint64` multiplication: wraps modulo `2 ^ 64`. -/
def u64mul (a b : Nat) : Nat := (a * b) % W

/-- Go constant `fcTimeConst = time.Millisecond`: one millisecond expressed in
the nanosecond unit of `mclock.AbsTime`, used as `uint64(fcTimeConst)`. -/
def fcTimeConst : Nat := 1000000

/-- Go constant `safetyMargin = time.Millisecond`, used as
`uint64(safetyMargin)` by `canSend`. -/
def safetyMargin : Nat := 1000000

/-- Go struct `ServerParams`: the parameters negotiated at handshake
(`BufLimit`, `MinRecharge`, both `uint64`). -/
structure ServerParams where
  bufLimit : Nat
  minRecharge : Nat
deriving DecidableEq

/-- Go struct `ClientNode` (the server-side tracker of one client): the fields
that the flow-control operations read and write.  The mutex, the manager
back-reference and the manager node handle carry no flow-control state. -/
structure ClientNodeState where
  params : ServerParams
  bufValue : Nat
  lastTime : Nat
deriving DecidableEq

/-- Go `NewClientNode`: buffer starts at `params.BufLimit`, clock at the
construction instant. -/
def NewClientNode (params : ServerParams) (now : Nat) : ClientNodeState :=
  { params := params, bufValue := params.bufLimit, lastTime := now }

/-- Go `(*ClientNode).recalcBV`: linear recharge of `bufValue` up to `time`,
clamped at `BufLimit`; a clock reading earlier than `lastTime` counts as zero
elapsed time; `lastTime` is set to `time` unconditionally. -/
def recalcBV (peer : ClientNodeState) (time : Nat) : ClientNodeState :=
  let dt := if time < peer.lastTime then 0 else time - peer.lastTime
  let bv := u64add peer.bufValue (u64mul peer.params.minRecharge dt / fcTimeConst)
  { peer with
      bufValue := if bv > peer.params.bufLimit then peer.params.bufLimit else bv,
      lastTime := time }

/-- Go `(*ClientNode).AcceptRequest`: recharge, then report the buffer value.
The admission boolean comes from the external manager hook `cm.accept` and
does not touch the tracker's state, so it is not part of the result here. -/
def AcceptRequest (peer : ClientNodeState) (now : Nat) : ClientNodeState × Nat :=
  let p := recalcBV peer now
  (p, p.bufValue)

/-- Go `(*ClientNode).RequestProcessed`: recharge, debit `cost` (wrapping
`uint64` subtraction), recharge again at the same instant, then consult the
manager hook `cm.processed`, whose reply `(rcValue, rcost)` is passed in as a
parameter; if `rcValue < BufLimit` the buffer is raised to
`BufLimit - rcValue` when that is larger.  Returns the new state, the reported
buffer value and the real cost. -/
def RequestProcessed (peer : ClientNodeState) (now cost rcValue rcost : Nat) :
    ClientNodeState × Nat × Nat :=
  let p := recalcBV peer now
  let p := { p with bufValue := u64sub p.bufValue cost }
  let p := recalcBV p now
  let p :=
    if rcValue < p.params.bufLimit then
      let bv := u64sub p.params.bufLimit rcValue
      if bv > p.bufValue then { p with bufValue := bv } else p
    else p
  (p, p.bufValue, rcost)

/-- Go struct `ServerNode` (the client-side tracker of one server): buffer
estimate, last recharge instant, running cost sum and the pending map
`reqID ↦ sumCost after queuing that request`. -/
structure ServerNodeState where
  params : ServerParams
  bufEstimate : Nat
  lastTime : Nat
  sumCost : Nat
  pending : Nat → Option Nat

/-- Go `NewServerNode`: estimate starts at `params.BufLimit`, the cost sum at
zero, the pending map empty. -/
def NewServerNode (params : ServerParams) (now : Nat) : ServerNodeState :=
  { params := params, bufEstimate := params.bufLimit, lastTime := now,
    sumCost := 0, pending := fun _ => none }

/-- Go `(*ServerNode).recalcBLE`: same recharge law as `recalcBV`, applied to
`bufEstimate`. -/
def recalcBLE (peer : ServerNodeState) (time : Nat) : ServerNodeState :=
  let dt := if time < peer.lastTime then 0 else time - peer.lastTime
  let bv := u64add peer.bufEstimate (u64mul peer.params.minRecharge dt / fcTimeConst)
  { peer with
      bufEstimate := if bv > peer.params.bufLimit then peer.params.bufLimit else bv,
      lastTime := time }

/-- Go `(*ServerNode).canSend` (the body of the exported `CanSend`): recharge,
inflate `maxCost` by `uint64(safetyMargin) * MinRecharge / uint64(fcTimeConst)`,
clamp it to `BufLimit`, then either answer zero delay together with the
relative headroom `float64(bufEstimate-maxCost) / float64(BufLimit)` (modelled
as an exact rational), or the delay
`(maxCost - bufEstimate) * uint64(fcTimeConst) / MinRecharge` with headroom 0.
The state is returned because the recharge mutates the tracker.  When the
delay branch is reached with `MinRecharge = 0` the Go division panics; that is
modelled as `none`. -/
def canSend (peer : ServerNodeState) (maxCost now : Nat) :
    Option (ServerNodeState × Nat × ℚ) :=
  let p := recalcBLE peer now
  let mc1 := u64add maxCost (u64mul safetyMargin p.params.minRecharge / fcTimeConst)
  let mc2 := if mc1 > p.params.bufLimit then p.params.bufLimit else mc1
  if p.bufEstimate ≥ mc2 then
    some (p, 0, ((u64sub p.bufEstimate mc2 : Nat) : ℚ) / (p.params.bufLimit : ℚ))
  else if p.params.minRecharge = 0 then
    none
  else
    some (p, u64mul (u64sub mc2 p.bufEstimate) fcTimeConst / p.params.minRecharge, 0)

/-- Go `(*ServerNode).QueueRequest`: debit the estimate (wrapping `uint64`
subtraction), add the cost to `sumCost` (wrapping addition) and record the new
`sumCost` under `reqID`, overwriting any previous entry. -/
def QueueRequest (peer : ServerNodeState) (reqID maxCost : Nat) : ServerNodeState :=
  let sc := u64add peer.sumCost maxCost
  { peer with
      bufEstimate := u64sub peer.bufEstimate maxCost,
      sumCost := sc,
      pending := fun k => if k = reqID then some sc else peer.pending k }

/-- Go `(*ServerNode).GotReply`: clamp `bv` to `BufLimit`; if `reqID` is not
pending, return with the state untouched; otherwise remove the entry, let
`cc = sumCost - sc` (wrapping `uint64` subtraction), set the estimate to
`bv - cc` when `bv > cc` and to zero otherwise, and set `lastTime` to the
current instant. -/
def GotReply (peer : ServerNodeState) (reqID bv now : Nat) : ServerNodeState :=
  let bv := if bv > peer.params.bufLimit then peer.params.bufLimit else bv
  match peer.pending reqID with
  | none => peer
  | some sc =>
    let cc := u64sub peer.sumCost sc
    { peer with
        pending := fun k => if k = reqID then none else peer.pending k,
        bufEstimate := if bv > cc then u64sub bv cc else 0,
        lastTime := now }

/-- Modelled from the spec: the per-message cost coefficients of the
`flowControl/MRC` table.  The concrete Go type (`requestCosts`, with `uint64`
fields `baseCost` and `reqCost`) is declared outside the analysed sources; the
spec describes the table as `(msg_code, base_cost, req_cost)` triples. -/
structure RequestCosts where
  baseCost : Nat
  reqCost : Nat
deriving DecidableEq

/-- Modelled from the spec: the flow-control face of an les `peer` as consumed
by `GetRequestCost` — the negotiated cost table (`fcCosts`, one entry per
message code) and the negotiated `fcServerParams.BufLimit`. -/
structure LesPeerFC where
  fcCosts : Nat → RequestCosts
  bufLimit : Nat

/-- Go `(*peer).GetRequestCost`: `baseCost + reqCost * uint64(amount)` in
wrapping `uint64` arithmetic, clamped to the negotiated buffer limit. -/
def GetRequestCost (p : LesPeerFC) (msgcode amount : Nat) : Nat :=
  let cost := u64add (p.fcCosts msgcode).baseCost (u64mul (p.fcCosts msgcode).reqCost amount)
  if cost > p.bufLimit then p.bufLimit else cost

/-- One core operation of the client-side tracker, with an arbitrary clock
reading and arbitrary manager-hook replies. -/
inductive ClientStep : ClientNodeState → ClientNodeState → Prop where
  | accept (s : ClientNodeState) (now : Nat) :
      ClientStep s (AcceptRequest s now).1
  | processed (s : ClientNodeState) (now cost rcValue rcost : Nat) :
      ClientStep s (RequestProcessed s now cost rcValue rcost).1

/-- States of a `ClientNode` reachable from construction by any sequence of
core operations. -/
inductive ClientReachable (params : ServerParams) : ClientNodeState → Prop where
  | init (now : Nat) : ClientReachable params (NewClientNode params now)
  | step {s t : ClientNodeState} :
      ClientReachable params s → ClientStep s t → ClientReachable params t

/-- One core operation of the server-side tracker, with an arbitrary clock
reading and arbitrary arguments. -/
inductive ServerStep : ServerNodeState → ServerNodeState → Prop where
  | cansend (s : ServerNodeState) (mc now dl : Nat) (p : ServerNodeState) (r : ℚ) :
      canSend s mc now = some (p, dl, r) → ServerStep s p
  | queue (s : ServerNodeState) (reqID mc : Nat) :
      ServerStep s (QueueRequest s reqID mc)
  | reply (s : ServerNodeState) (reqID bv now : Nat) :
      ServerStep s (GotReply s reqID bv now)

/-- States of a `ServerNode` reachable from construction by any sequence of
core operations. -/
inductive ServerReachable (params : ServerParams) : ServerNodeState → Prop where
  | init (now : Nat) : ServerReachable params (NewServerNode params now)
  | step {s t : ServerNodeState} :
      ServerReachable params s → ServerStep s t → ServerReachable params t

/-- Like `ServerStep`, but every `QueueRequest` debits at most the current
estimate (the discipline the protocol expects callers to keep by consulting
`CanSend` first). -/
inductive GuardedServerStep : ServerNodeState → ServerNodeState → Prop where
  | cansend (s : ServerNodeState) (mc now dl : Nat) (p : ServerNodeState) (r : ℚ) :
      canSend s mc now = some (p, dl, r) → GuardedServerStep s p
  | queue (s : ServerNodeState) (reqID mc : Nat) :
      mc ≤ s.bufEstimate → GuardedServerStep s (QueueRequest s reqID mc)
  | reply (s : ServerNodeState) (reqID bv now : Nat) :
      GuardedServerStep s (GotReply s reqID bv now)

/-- Reachability under `GuardedServerStep`. -/
inductive GuardedServerReachable (params : ServerParams) : ServerNodeState → Prop where
  | init (now : Nat) : GuardedServerReachable params (NewServerNode params now)
  | step {s t : ServerNodeState} :
      GuardedServerReachable params s → GuardedServerStep s t →
      GuardedServerReachable params t

theorem W_pos : 0 < W := by decide

theorem u64add_lt (a b : Nat) : u64add a b < W :=
  Nat.mod_lt _ W_pos

theorem u64sub_lt (a b : Nat) : u64sub a b < W :=
  Nat.mod_lt _ W_pos

theorem u64mul_lt (a b : Nat) : u64mul a b < W :=
  Nat.mod_lt _ W_pos

theorem u64sub_eq_sub {a b : Nat} (h : b ≤ a) (ha : a < W) : u64sub a b = a - b := by
  have hb : b % W = b := Nat.mod_eq_of_lt (lt_of_le_of_lt h ha)
  unfold u64sub
  rw [hb]
  have hbW : b ≤ W := le_of_lt (lt_of_le_of_lt h ha)
  have h1 : a + (W - b) = W + (a - b) := by omega
  rw [h1, Nat.add_mod_left]
  exact Nat.mod_eq_of_lt (by omega)

theorem u64sub_le_left {a b : Nat} (h : b < a) : u64sub a b ≤ a := by
  rcases Nat.lt_or_ge a W with ha | ha
  · rw [u64sub_eq_sub (le_of_lt h) ha]; omega
  · exact le_trans (le_of_lt (u64sub_lt a b)) ha

theorem clamp_eq_min (L x : Nat) : (if L < x then L else x) = min L x := by
  split <;> omega

theorem recalcBV_bufValue_le (peer : ClientNodeState) (t : Nat) :
    (recalcBV peer t).bufValue ≤ peer.params.bufLimit := by
  unfold recalcBV
  dsimp only
  split <;> split <;> omega

theorem recalcBLE_bufEstimate_le (peer : ServerNodeState) (t : Nat) :
    (recalcBLE peer t).bufEstimate ≤ peer.params.bufLimit := by
  unfold recalcBLE
  dsimp only
  split <;> split <;> omega

theorem recalcBLE_bufEstimate_lt (peer : ServerNodeState) (t : Nat) :
    (recalcBLE peer t).bufEstimate < W := by
  unfold recalcBLE
  dsimp only
  split <;> split
  all_goals first
    | exact u64add_lt _ _
    | exact lt_trans (by assumption) (u64add_lt _ _)

theorem canSend_some_state {s : ServerNodeState} {mc now : Nat} {p : ServerNodeState}
    {dl : Nat} {r : ℚ} (h : canSend s mc now = some (p, dl, r)) :
    p = recalcBLE s now := by
  unfold canSend at h
  dsimp only at h
  repeat' split at h
  all_goals first
    | exact Option.noConfusion h
    | (rw [Option.some.injEq, Prod.mk.injEq] at h; exact h.1.symm)

theorem u64sub_self {a : Nat} (ha : a < W) : u64sub a a = 0 := by
  rw [u64sub_eq_sub (le_refl a) ha]
  omega

theorem u64sub_zero {a : Nat} (ha : a < W) : u64sub a 0 = a := by
  rw [u64sub_eq_sub (Nat.zero_le a) ha]
  omega

theorem recalcBV_params (peer : ClientNodeState) (t : Nat) :
    (recalcBV peer t).params = peer.params := rfl

theorem recalcBLE_params (peer : ServerNodeState) (t : Nat) :
    (recalcBLE peer t).params = peer.params := rfl

theorem gotReply_found {peer : ServerNodeState} {reqID sc : Nat} (bv now : Nat)
    (hp : peer.pending reqID = some sc) :
    GotReply peer reqID bv now =
      { peer with
          pending := fun k => if k = reqID then none else peer.pending k,
          bufEstimate :=
            if (if peer.params.bufLimit < bv then peer.params.bufLimit else bv) >
                u64sub peer.sumCost sc
            then u64sub (if peer.params.bufLimit < bv then peer.params.bufLimit else bv)
              (u64sub peer.sumCost sc)
            else 0,
          lastTime := now } := by
  unfold GotReply
  rw [hp]

/-- C2: for both trackers, `recalcBV`/`recalcBLE` at time `t` turn the buffer
field `B` into `min(BufLimit, B + MinRecharge * max(0, t - lastTime) /
fcTimeConst)` — with wrapping 64-bit unsigned multiplication and addition,
integer division, and `fcTimeConst` one millisecond — and set `lastTime` to
`t` unconditionally; a clock reading `t < lastTime` contributes zero elapsed
time (`t - lastTime` is truncated subtraction, i.e. `max(0, t - lastTime)`),
yet `lastTime` still moves backward to `t`. -/
theorem c2_recharge_law (c : ClientNodeState) (s : ServerNodeState) (t : Nat) :
    ((recalcBV c t).bufValue =
        min c.params.bufLimit
          (u64add c.bufValue (u64mul c.params.minRecharge (t - c.lastTime) / fcTimeConst)) ∧
      (recalcBV c t).lastTime = t) ∧
    ((recalcBLE s t).bufEstimate =
        min s.params.bufLimit
          (u64add s.bufEstimate (u64mul s.params.minRecharge (t - s.lastTime) / fcTimeConst)) ∧
      (recalcBLE s t).lastTime = t) := by
  refine ⟨⟨?_, rfl⟩, ?_, rfl⟩
  · unfold recalcBV
    dsimp only
    rw [show (if t < c.lastTime then 0 else t - c.lastTime) = t - c.lastTime by
      split <;> omega]
    exact clamp_eq_min _ _
  · unfold recalcBLE
    dsimp only
    rw [show (if t < s.lastTime then 0 else t - s.lastTime) = t - s.lastTime by
      split <;> omega]
    exact clamp_eq_min _ _

/-- C6: on a freshly constructed `ServerNode`, `QueueRequest id c` immediately
followed by `GotReply id BufLimit` restores `bufEstimate = BufLimit`, for every
id, cost and timestamps. -/
theorem c6_round_trip (params : ServerParams) (reqID c t0 now : Nat)
    (hL : params.bufLimit < W) :
    (GotReply (QueueRequest (NewServerNode params t0) reqID c) reqID
        params.bufLimit now).bufEstimate = params.bufLimit := by
  have hq : (QueueRequest (NewServerNode params t0) reqID c).pending reqID
      = some (u64add 0 c) := by
    unfold QueueRequest NewServerNode
    dsimp only
    rw [if_pos rfl]
  rw [gotReply_found params.bufLimit now hq]
  show (if (if params.bufLimit < params.bufLimit then params.bufLimit else params.bufLimit) >
        u64sub (u64add 0 c) (u64add 0 c)
      then u64sub (if params.bufLimit < params.bufLimit then params.bufLimit else params.bufLimit)
        (u64sub (u64add 0 c) (u64add 0 c))
      else 0) = params.bufLimit
  rw [if_neg (lt_irrefl _), u64sub_self (u64add_lt 0 c)]
  split
  · exact u64sub_zero hL
  · omega

/-- C7: a `GotReply` whose request id is not pending leaves the whole tracker
state untouched and surfaces no error. -/
theorem c7_unknown_reply_noop (peer : ServerNodeState) (reqID bv now : Nat)
    (hp : peer.pending reqID = none) :
    GotReply peer reqID bv now = peer := by
  unfold GotReply
  rw [hp]

/-- C8: `GetRequestCost` returns the per-message cost
`baseCost + reqCost * amount` clamped to the negotiated buffer limit
(stated for cost values inside the `uint64` range, where the Go arithmetic
does not wrap). -/
theorem c8_get_request_cost (p : LesPeerFC) (msgcode amount : Nat)
    (h : (p.fcCosts msgcode).baseCost + (p.fcCosts msgcode).reqCost * amount < W) :
    GetRequestCost p msgcode amount =
      min p.bufLimit ((p.fcCosts msgcode).baseCost + (p.fcCosts msgcode).reqCost * amount) := by
  unfold GetRequestCost
  dsimp only
  simp only [u64add, u64mul]
  rw [Nat.mod_eq_of_lt (show (p.fcCosts msgcode).reqCost * amount < W by omega),
    Nat.mod_eq_of_lt h]
  exact clamp_eq_min _ _

/-- C10: `QueueRequest` never checks whether the request id is already
pending: it debits the estimate, adds the cost to `sumCost`, and overwrites
the pending entry for `reqID` with the new `sumCost`, losing the earlier
snapshot. -/
theorem c10_queue_request_overwrite (peer : ServerNodeState) (reqID c s0 : Nat)
    (hp : peer.pending reqID = some s0) :
    QueueRequest peer reqID c =
      { peer with
          bufEstimate := u64sub peer.bufEstimate c,
          sumCost := u64add peer.sumCost c,
          pending := fun k =>
            if k = reqID then some (u64add peer.sumCost c) else peer.pending k } ∧
    (QueueRequest peer reqID c).pending reqID = some (u64add peer.sumCost c) := by
  refine ⟨rfl, ?_⟩
  unfold QueueRequest
  dsimp only
  rw [if_pos rfl]

/-- C3: a `GotReply` for a pending request with snapshot `sc` clamps `bv` to
`BufLimit`, removes the pending entry, lets `cc = sumCost - sc` (wrapping
`uint64` subtraction), reconciles the estimate to `clamped bv - cc` when
`clamped bv > cc` and to zero otherwise, anchors `lastTime` at the current
instant — and the resulting estimate never exceeds the reported `bv`. -/
theorem c3_got_reply_reconciliation (peer : ServerNodeState) (reqID bv now sc : Nat)
    (hbv : bv < W)
    (hp : peer.pending reqID = some sc) :
    GotReply peer reqID bv now =
      { peer with
          pending := fun k => if k = reqID then none else peer.pending k,
          bufEstimate :=
            if u64sub peer.sumCost sc < min peer.params.bufLimit bv
            then min peer.params.bufLimit bv - u64sub peer.sumCost sc
            else 0,
          lastTime := now } ∧
    (GotReply peer reqID bv now).bufEstimate ≤ bv := by
  have hbv' : min peer.params.bufLimit bv < W :=
    lt_of_le_of_lt (min_le_right _ _) hbv
  have he : (if u64sub peer.sumCost sc < min peer.params.bufLimit bv
        then u64sub (min peer.params.bufLimit bv) (u64sub peer.sumCost sc)
        else 0)
      = (if u64sub peer.sumCost sc < min peer.params.bufLimit bv
        then min peer.params.bufLimit bv - u64sub peer.sumCost sc
        else 0) := by
    split
    · exact u64sub_eq_sub (le_of_lt (by assumption)) hbv'
    · rfl
  constructor
  · rw [gotReply_found bv now hp, clamp_eq_min, he]
  · rw [gotReply_found bv now hp, clamp_eq_min]
    show (if u64sub peer.sumCost sc < min peer.params.bufLimit bv
        then u64sub (min peer.params.bufLimit bv) (u64sub peer.sumCost sc)
        else 0) ≤ bv
    rw [he]
    split <;> omega

/-- C4: with a positive recharge rate, `canSend` recharges, inflates the cost
by `safetyMargin * MinRecharge / fcTimeConst`, clamps the effective cost to
`BufLimit`, and answers either zero delay with exact relative headroom
`(bufEstimate - cost) / BufLimit` or the delay
`(cost - bufEstimate) * fcTimeConst / MinRecharge` with zero headroom. -/
theorem c4_can_send_formula (peer : ServerNodeState) (maxCost now : Nat)
    (hR : 0 < peer.params.minRecharge) :
    canSend peer maxCost now =
      (let p := recalcBLE peer now
       let eff := min p.params.bufLimit
         (u64add maxCost (u64mul safetyMargin p.params.minRecharge / fcTimeConst))
       if eff ≤ p.bufEstimate then
         some (p, 0, ((p.bufEstimate - eff : Nat) : ℚ) / (p.params.bufLimit : ℚ))
       else
         some (p, u64mul (eff - p.bufEstimate) fcTimeConst / p.params.minRecharge, 0)) := by
  have hbe := recalcBLE_bufEstimate_lt peer now
  have hR' : 0 < (recalcBLE peer now).params.minRecharge := hR
  have heff : min (recalcBLE peer now).params.bufLimit
      (u64add maxCost
        (u64mul safetyMargin (recalcBLE peer now).params.minRecharge / fcTimeConst)) < W :=
    lt_of_le_of_lt (min_le_right _ _) (u64add_lt _ _)
  unfold canSend
  dsimp only
  rw [clamp_eq_min]
  split
  · rw [u64sub_eq_sub (by assumption) hbe]
  · rw [if_neg (by omega), u64sub_eq_sub (by omega) heff]

/-- Stated from the spec's words for comparison with `RequestProcessed`: after
the two recharges around the debit, the manager adjustment raises the buffer
to `max(bufValue, BufLimit - rcValue)` when `rcValue < BufLimit`, and the
operation returns the final buffer value and the real cost. -/
def RequestProcessedSpec (peer : ClientNodeState) (now cost rcValue rcost : Nat) :
    ClientNodeState × Nat × Nat :=
  let p := recalcBV { recalcBV peer now with
    bufValue := u64sub (recalcBV peer now).bufValue cost } now
  let final := if rcValue < peer.params.bufLimit
    then max p.bufValue (peer.params.bufLimit - rcValue)
    else p.bufValue
  ({ p with bufValue := final }, final, rcost)

/-- C5: `RequestProcessed` recharges at `now`, debits `cost` with wrapping
`uint64` subtraction, recharges again at the same instant, and then applies
the manager adjustment, which raises `bufValue` to
`max(bufValue, BufLimit - rcValue)` when `rcValue < BufLimit` and never
decreases it; the final buffer value is returned together with the manager's
real cost. -/
theorem c5_request_processed (peer : ClientNodeState) (now cost rcValue rcost : Nat)
    (hL : peer.params.bufLimit < W) :
    RequestProcessed peer now cost rcValue rcost =
        RequestProcessedSpec peer now cost rcValue rcost ∧
    (recalcBV { recalcBV peer now with
        bufValue := u64sub (recalcBV peer now).bufValue cost } now).bufValue
      ≤ (RequestProcessedSpec peer now cost rcValue rcost).1.bufValue := by
  constructor
  · unfold RequestProcessed RequestProcessedSpec
    dsimp only
    simp only [recalcBV_params]
    split
    · rw [u64sub_eq_sub (by omega : rcValue ≤ peer.params.bufLimit) hL]
      split
      · rw [max_eq_right (by omega : _ ≤ peer.params.bufLimit - rcValue)]
      · rw [max_eq_left (by omega)]
        exact rfl
    · rfl
  · unfold RequestProcessedSpec
    dsimp only
    split
    · exact le_max_left _ _
    · exact le_refl _

/-- C9: the delay division of `canSend` is safe exactly when `MinRecharge` is
positive: every call on a tracker with `MinRecharge > 0` completes (no
division by zero), while with `MinRecharge = 0` a state whose estimate is
below the clamped effective cost makes the Go division `/ MinRecharge` divide
by zero (modelled as `none`). -/
theorem c9_can_send_division_by_zero :
    (∀ (s : ServerNodeState) (mc now : Nat),
        0 < s.params.minRecharge → (canSend s mc now).isSome = true) ∧
    canSend { params := ⟨100, 0⟩, bufEstimate := 0, lastTime := 0, sumCost := 0,
              pending := fun _ => none } 50 0 = none := by
  constructor
  · intro s mc now hR
    have hR' : 0 < (recalcBLE s now).params.minRecharge := hR
    unfold canSend
    dsimp only
    repeat' split
    all_goals first
      | rfl
      | exact absurd (by assumption : (recalcBLE s now).params.minRecharge = 0) (by omega)
  · rfl

theorem requestProcessed_params (peer : ClientNodeState) (now cost rcValue rcost : Nat) :
    ((RequestProcessed peer now cost rcValue rcost).1).params = peer.params := by
  unfold RequestProcessed
  dsimp only
  split
  · split <;> rfl
  · rfl

theorem requestProcessed_bufValue_le (peer : ClientNodeState) (now cost rcValue rcost : Nat) :
    ((RequestProcessed peer now cost rcValue rcost).1).bufValue ≤ peer.params.bufLimit := by
  unfold RequestProcessed
  dsimp only
  split
  · split
    · exact u64sub_le_left (by assumption)
    · exact recalcBV_bufValue_le _ _
  · exact recalcBV_bufValue_le _ _

theorem gotReply_params (peer : ServerNodeState) (reqID bv now : Nat) :
    (GotReply peer reqID bv now).params = peer.params := by
  unfold GotReply
  dsimp only
  split <;> rfl

theorem gotReply_bufEstimate_le (peer : ServerNodeState) (reqID bv now : Nat)
    (ih : peer.bufEstimate ≤ peer.params.bufLimit) :
    (GotReply peer reqID bv now).bufEstimate ≤ peer.params.bufLimit := by
  unfold GotReply
  dsimp only
  repeat' split
  all_goals first
    | exact ih
    | exact Nat.zero_le _
    | exact u64sub_le_left (by assumption)
    | exact le_trans (u64sub_le_left (by assumption)) (by omega)

/-- C1 (counterexample): the buffer-ceiling invariant fails on the code as
claimed: from a fresh `ServerNode` with `BufLimit = 1000`, the single core
operation `QueueRequest 1 2000` reaches a state whose `bufEstimate` is
`2^64 - 1000`, strictly above `BufLimit`, because the debit is an unchecked
wrapping `uint64` subtraction. -/
theorem c1_buffer_ceiling_counterexample :
    ServerReachable ⟨1000, 100⟩ (QueueRequest (NewServerNode ⟨1000, 100⟩ 0) 1 2000) ∧
    (⟨1000, 100⟩ : ServerParams).bufLimit
      < (QueueRequest (NewServerNode ⟨1000, 100⟩ 0) 1 2000).bufEstimate :=
  ⟨ServerReachable.step (ServerReachable.init 0) (ServerStep.queue _ 1 2000), by decide⟩

/-- C1 (amended): the client-side tracker satisfies
`bufValue ≤ BufLimit` in every reachable state; the server-side tracker
satisfies `bufEstimate ≤ BufLimit` in every state reachable when each
`QueueRequest` debits at most the current `bufEstimate` (the discipline the
protocol expects from callers that consult `CanSend` first) — without that
guard the wrapping debit of `QueueRequest` can exceed the ceiling. -/
theorem c1_buffer_ceiling_amended (params : ServerParams) (hW : params.bufLimit < W) :
    (∀ c, ClientReachable params c → c.bufValue ≤ c.params.bufLimit) ∧
    (∀ s, GuardedServerReachable params s → s.bufEstimate ≤ s.params.bufLimit) := by
  constructor
  · intro c hc
    induction hc with
    | init now => exact le_refl _
    | @step s t hr hs ih =>
      cases hs with
      | accept now => exact recalcBV_bufValue_le s now
      | processed now cost rcValue rcost =>
        calc ((RequestProcessed s now cost rcValue rcost).1).bufValue
            ≤ s.params.bufLimit := requestProcessed_bufValue_le s now cost rcValue rcost
          _ = ((RequestProcessed s now cost rcValue rcost).1).params.bufLimit := by
              rw [requestProcessed_params]
  · intro s hs
    have key : ∀ t, GuardedServerReachable params t →
        t.params = params ∧ t.bufEstimate ≤ t.params.bufLimit := by
      intro t ht
      induction ht with
      | init now => exact ⟨rfl, le_refl _⟩
      | @step s t hr hstep ih =>
        cases hstep with
        | cansend mc now dl p r h =>
          rw [canSend_some_state h]
          exact ⟨ih.1, recalcBLE_bufEstimate_le _ _⟩
        | queue reqID mc hmc =>
          have h2 := ih.2
          have hsW : s.bufEstimate < W := by
            have h1 := ih.1
            rw [h1] at h2
            omega
          refine ⟨ih.1, ?_⟩
          show u64sub s.bufEstimate mc ≤ s.params.bufLimit
          rw [u64sub_eq_sub hmc hsW]
          have h3 := ih.2
          omega
        | reply reqID bv now =>
          refine ⟨?_, ?_⟩
          · rw [gotReply_params]
            exact ih.1
          · rw [gotReply_params]
            exact gotReply_bufEstimate_le s reqID bv now ih.2
    exact (key s hs).2

theorem c1_buffer_ceiling_amended_witness :
    (⟨1000, 100⟩ : ServerParams).bufLimit < W ∧
    400 ≤ (NewServerNode ⟨1000, 100⟩ 0).bufEstimate ∧
    (QueueRequest (NewServerNode ⟨1000, 100⟩ 0) 1 400).bufEstimate
      ≤ (QueueRequest (NewServerNode ⟨1000, 100⟩ 0) 1 400).params.bufLimit ∧
    (NewClientNode ⟨1000, 100⟩ 0).bufValue ≤ (NewClientNode ⟨1000, 100⟩ 0).params.bufLimit :=
  ⟨by decide, by decide,
    (c1_buffer_ceiling_amended ⟨1000, 100⟩ (by decide)).2 _
      (GuardedServerReachable.step (GuardedServerReachable.init 0)
        (GuardedServerStep.queue _ 1 400 (by decide))),
    (c1_buffer_ceiling_amended ⟨1000, 100⟩ (by decide)).1 _ (ClientReachable.init 0)⟩

theorem c3_got_reply_reconciliation_witness :
    (700 : Nat) < W ∧
    (QueueRequest (NewServerNode ⟨1000, 100⟩ 0) 1 400).pending 1 = some 400 ∧
    (GotReply (QueueRequest (NewServerNode ⟨1000, 100⟩ 0) 1 400) 1 700 5).bufEstimate ≤ 700 :=
  ⟨by decide, by decide,
    (c3_got_reply_reconciliation (QueueRequest (NewServerNode ⟨1000, 100⟩ 0) 1 400)
      1 700 5 400 (by decide) (by decide)).2⟩

theorem c4_can_send_formula_witness :
    0 < (NewServerNode ⟨1000, 100⟩ 0).params.minRecharge ∧
    canSend (NewServerNode ⟨1000, 100⟩ 0) 150 0 =
      (let p := recalcBLE (NewServerNode ⟨1000, 100⟩ 0) 0
       let eff := min p.params.bufLimit
         (u64add 150 (u64mul safetyMargin p.params.minRecharge / fcTimeConst))
       if eff ≤ p.bufEstimate then
         some (p, 0, ((p.bufEstimate - eff : Nat) : ℚ) / (p.params.bufLimit : ℚ))
       else
         some (p, u64mul (eff - p.bufEstimate) fcTimeConst / p.params.minRecharge, 0)) :=
  ⟨by decide, c4_can_send_formula (NewServerNode ⟨1000, 100⟩ 0) 150 0 (by decide)⟩

theorem c5_request_processed_witness :
    (NewClientNode ⟨1000, 100⟩ 0).params.bufLimit < W ∧
    RequestProcessed (NewClientNode ⟨1000, 100⟩ 0) 0 300 1000 300 =
        RequestProcessedSpec (NewClientNode ⟨1000, 100⟩ 0) 0 300 1000 300 ∧
    (recalcBV { recalcBV (NewClientNode ⟨1000, 100⟩ 0) 0 with
        bufValue := u64sub (recalcBV (NewClientNode ⟨1000, 100⟩ 0) 0).bufValue 300 } 0).bufValue
      ≤ (RequestProcessedSpec (NewClientNode ⟨1000, 100⟩ 0) 0 300 1000 300).1.bufValue :=
  ⟨by decide,
    (c5_request_processed (NewClientNode ⟨1000, 100⟩ 0) 0 300 1000 300 (by decide)).1,
    (c5_request_processed (NewClientNode ⟨1000, 100⟩ 0) 0 300 1000 300 (by decide)).2⟩

theorem c6_round_trip_witness :
    (⟨1000, 100⟩ : ServerParams).bufLimit < W ∧
    (GotReply (QueueRequest (NewServerNode ⟨1000, 100⟩ 0) 7 400) 7 1000 3).bufEstimate = 1000 :=
  ⟨by decide, c6_round_trip ⟨1000, 100⟩ 7 400 0 3 (by decide)⟩

theorem c7_unknown_reply_noop_witness :
    (NewServerNode ⟨1000, 100⟩ 0).pending 99 = none ∧
    GotReply (NewServerNode ⟨1000, 100⟩ 0) 99 999 5 = NewServerNode ⟨1000, 100⟩ 0 :=
  ⟨rfl, c7_unknown_reply_noop (NewServerNode ⟨1000, 100⟩ 0) 99 999 5 rfl⟩

theorem c8_get_request_cost_witness :
    (300 : Nat) + 10 * 5 < W ∧
    GetRequestCost ⟨fun _ => ⟨300, 10⟩, 1000⟩ 2 5 = min 1000 (300 + 10 * 5) :=
  ⟨by decide, c8_get_request_cost ⟨fun _ => ⟨300, 10⟩, 1000⟩ 2 5 (by decide)⟩

theorem c9_can_send_division_by_zero_witness :
    0 < (NewServerNode ⟨1000, 100⟩ 0).params.minRecharge ∧
    (canSend (NewServerNode ⟨1000, 100⟩ 0) 150 0).isSome = true :=
  ⟨by decide, c9_can_send_division_by_zero.1 (NewServerNode ⟨1000, 100⟩ 0) 150 0 (by decide)⟩

theorem c10_queue_request_overwrite_witness :
    (QueueRequest (NewServerNode ⟨1000, 100⟩ 0) 1 400).pending 1 = some 400 ∧
    (QueueRequest (QueueRequest (NewServerNode ⟨1000, 100⟩ 0) 1 400) 1 200).pending 1
      = some 600 :=
  ⟨by decide,
    (c10_queue_request_overwrite (QueueRequest (NewServerNode ⟨1000, 100⟩ 0) 1 400) 1 200 400
      (by decide)).2⟩

end FlowControl
